import Mathlib

/-!
Verification of the objective-builder core of
`modules/planning/math/piecewise_jerk/piecewise_jerk_speed_problem.cc`
(class `PiecewiseJerkSpeedProblem`).

The C++ class is embedded shallowly: its member variables become the fields
of a structure, `double` becomes `ℚ`, `std::vector` becomes `List`, and
`std::array<double, 3>` becomes a three-field structure.  The two fatal
`CHECK` macros (length checks in the setters, and the nonzero-count check in
`CalculateKernel`) are modelled by `Option`: `none` is the aborted run.
-/

namespace Apollo

/-- Model of `std::array<double, 3>` with rationals standing in for doubles. -/
structure Arr3 where
  a0 : ℚ
  a1 : ℚ
  a2 : ℚ

/-- The state of a `PiecewiseJerkSpeedProblem` object: the fields of the class
together with the fields of its base class `PiecewiseJerkProblem` that the
source file reads (`num_of_knots_`, `delta_s_`, `weight_ddx_`, `weight_dddx_`). -/
structure PJSP where
  num_of_knots : Nat
  delta_s : ℚ
  weight_ddx : ℚ
  weight_dddx : ℚ
  weight_x_ref : ℚ
  weight_dx_ref : ℚ
  dx_ref : ℚ
  x_ref : List ℚ
  penalty_dx : List ℚ
  weight_end_state : Arr3
  end_state_ref : Arr3
  has_x_ref : Bool
  has_dx_ref : Bool
  has_end_state_ref : Bool

/-- Constructor (lines 28-33): stores the knot count and spacing and resizes
`penalty_dx_` to all zeros.  Reference flags start absent; the base weights
start at zero (they are set through the base class, outside this file). -/
def init (num_of_knots : Nat) (delta_s : ℚ) : PJSP :=
  { num_of_knots := num_of_knots
    delta_s := delta_s
    weight_ddx := 0
    weight_dddx := 0
    weight_x_ref := 0
    weight_dx_ref := 0
    dx_ref := 0
    x_ref := []
    penalty_dx := List.replicate num_of_knots 0
    weight_end_state := ⟨0, 0, 0⟩
    end_state_ref := ⟨0, 0, 0⟩
    has_x_ref := false
    has_dx_ref := false
    has_end_state_ref := false }

/-- `set_x_ref` (lines 35-41): `CHECK_EQ(x_ref.size(), num_of_knots_)`, then
store the reference and weight and mark the position reference active. -/
def set_x_ref (p : PJSP) (weight_x_ref : ℚ) (x_ref : List ℚ) : Option PJSP :=
  if x_ref.length = p.num_of_knots then
    some { p with x_ref := x_ref, weight_x_ref := weight_x_ref, has_x_ref := true }
  else none

/-- `set_dx_ref` (lines 43-48): store the scalar weight and target, mark the
velocity reference active. -/
def set_dx_ref (p : PJSP) (weight_dx_ref : ℚ) (dx_ref : ℚ) : PJSP :=
  { p with weight_dx_ref := weight_dx_ref, dx_ref := dx_ref, has_dx_ref := true }

/-- `set_penalty_dx` (lines 50-53): `CHECK_EQ(penalty_dx.size(), num_of_knots_)`,
then replace the stored per-knot penalty vector. -/
def set_penalty_dx (p : PJSP) (penalty_dx : List ℚ) : Option PJSP :=
  if penalty_dx.length = p.num_of_knots then
    some { p with penalty_dx := penalty_dx }
  else none

/-- `set_end_state_ref` (lines 55-61). -/
def set_end_state_ref (p : PJSP) (weight_end_state : Arr3) (end_state_ref : Arr3) : PJSP :=
  { p with weight_end_state := weight_end_state, end_state_ref := end_state_ref,
           has_end_state_ref := true }

/-- The sequence of `columns[c].emplace_back(r, v)` operations performed by
`CalculateKernel` (lines 73-114), in program order, as `(c, r, v)` triples.
`v` is the bare coefficient, before the doubling of line 122.  The interior
acceleration loop of lines 98-102 runs over `i = 1, ..., n-2`, written here
as `i = 1 + k` for `k < n-2`; all loop bounds agree with the C++ `int`
arithmetic for every `n ≥ 1` because no intermediate value is negative. -/
def kernelOps (p : PJSP) : List (Nat × Nat × ℚ) :=
  let n := p.num_of_knots
  let ds2 := p.delta_s * p.delta_s
  ((List.range (n - 1)).map (fun i => (i, i, p.weight_x_ref)))
    ++ [(n - 1, n - 1, p.weight_x_ref + p.weight_end_state.a0)]
    ++ ((List.range (n - 1)).map
          (fun i => (n + i, n + i, p.weight_dx_ref + p.penalty_dx.getD i 0)))
    ++ [(2 * n - 1, 2 * n - 1,
          p.weight_dx_ref + p.penalty_dx.getD (n - 1) 0 + p.weight_end_state.a1)]
    ++ [(2 * n, 2 * n, p.weight_ddx + p.weight_dddx / ds2)]
    ++ ((List.range (n - 2)).map
          (fun k => (2 * n + 1 + k, 2 * n + 1 + k,
                     p.weight_ddx + 2 * p.weight_dddx / ds2)))
    ++ [(3 * n - 1, 3 * n - 1,
          p.weight_ddx + p.weight_dddx / ds2 + p.weight_end_state.a2)]
    ++ ((List.range (n - 1)).map
          (fun i => (2 * n + i, 2 * n + i + 1, -2 * p.weight_dddx / ds2)))

/-- The `columns` array of `CalculateKernel`: `m` initially-empty column lists
into which the operations append `(row, value)` pairs in order. -/
def buildColumns (m : Nat) (ops : List (Nat × Nat × ℚ)) : List (List (Nat × ℚ)) :=
  ops.foldl (fun cols e => cols.set e.1 ((cols.getD e.1 []) ++ [(e.2.1, e.2.2)]))
    (List.replicate m [])

/-- The state threaded through the emission loop of lines 118-127:
`P_data`, `P_indices`, `P_indptr` and the running counter `ind_p`. -/
structure EmitState where
  dat : List ℚ
  idx : List Nat
  ptr : List Nat
  ind : Nat

/-- Inner loop body of lines 121-125: push the doubled value and the row
index, increment `ind_p`. -/
def emitEntry (s : EmitState) (e : Nat × ℚ) : EmitState :=
  { s with dat := s.dat ++ [e.2 * 2], idx := s.idx ++ [e.1], ind := s.ind + 1 }

/-- Outer loop body of lines 119-126: push the current `ind_p` onto
`P_indptr`, then emit every entry of the column. -/
def emitColumn (s : EmitState) (col : List (Nat × ℚ)) : EmitState :=
  col.foldl emitEntry { s with ptr := s.ptr ++ [s.ind] }

/-- `CalculateKernel` (lines 63-128).  Builds the per-column entry lists,
checks `CHECK_EQ(value_index, kNumValue)` (modelled as `Option`), then emits
`(P_data, P_indices, P_indptr)` column by column, appending the final
`ind_p` to `P_indptr`. -/
def CalculateKernel (p : PJSP) : Option (List ℚ × List Nat × List Nat) :=
  let n := p.num_of_knots
  let ops := kernelOps p
  if ops.length = 4 * n - 1 then
    let s := (buildColumns (3 * n) ops).foldl emitColumn ⟨[], [], [], 0⟩
    some (s.dat, s.idx, s.ptr ++ [s.ind])
  else none

/-- One iteration of the loop of lines 135-142 of `CalculateOffset`: add the
position-reference contribution at `i` and the velocity-reference
contribution at `n + i`, each guarded by its presence flag. -/
def offsetStep (p : PJSP) (q : List ℚ) (i : Nat) : List ℚ :=
  let n := p.num_of_knots
  let q1 := if p.has_x_ref then
      q.set i (q.getD i 0 + -2 * p.weight_x_ref * p.x_ref.getD i 0)
    else q
  if p.has_dx_ref then
    q1.set (n + i) (q1.getD (n + i) 0 + -2 * p.weight_dx_ref * p.dx_ref)
  else q1

/-- `CalculateOffset` (lines 130-149): `q` is resized to `3n` zeros, the
per-knot loop adds the active reference contributions, then the end-state
block (lines 144-148) accumulates onto indices `n-1`, `2n-1`, `3n-1`. -/
def CalculateOffset (p : PJSP) : List ℚ :=
  let n := p.num_of_knots
  let q0 := List.replicate (3 * n) (0 : ℚ)
  let q1 := (List.range n).foldl (offsetStep p) q0
  if p.has_end_state_ref then
    let q2 := q1.set (n - 1)
      (q1.getD (n - 1) 0 + -2 * p.weight_end_state.a0 * p.end_state_ref.a0)
    let q3 := q2.set (2 * n - 1)
      (q2.getD (2 * n - 1) 0 + -2 * p.weight_end_state.a1 * p.end_state_ref.a1)
    q3.set (3 * n - 1)
      (q3.getD (3 * n - 1) 0 + -2 * p.weight_end_state.a2 * p.end_state_ref.a2)
  else q1

/-- The list of `(row, value)` pairs stored in column `j` of the `columns`
array after all emplace operations. -/
def columnsOf (p : PJSP) (j : Nat) : List (Nat × ℚ) :=
  (buildColumns (3 * p.num_of_knots) (kernelOps p)).getD j []

/-- The bare (pre-doubling) coefficients stored at column `c`, row `r`, in
storage order. -/
def storedAt (p : PJSP) (c r : Nat) : List ℚ :=
  (columnsOf p c).filterMap (fun e => if e.1 = r then some e.2 else none)

/-- The `(column, row, emitted value)` triples in emission (column-major)
order; the emitted value carries the doubling of line 122.  The value and
row components are exactly what lines 122-123 push onto `P_data` and
`P_indices`. -/
def emittedTriples (p : PJSP) : List (Nat × Nat × ℚ) :=
  ((List.range (3 * p.num_of_knots)).map
    (fun j => (columnsOf p j).map (fun e => (j, e.1, e.2 * 2)))).flatten

/-- The emitted (doubled) values at column `c`, row `r`. -/
def emittedAt (p : PJSP) (c r : Nat) : List ℚ :=
  (emittedTriples p).filterMap
    (fun t => if t.1 = c ∧ t.2.1 = r then some t.2.2 else none)

/-- The bare stored coefficients in emission order (column-major), before the
doubling of line 122. -/
def rawStored (p : PJSP) : List ℚ :=
  ((List.range (3 * p.num_of_knots)).map
    (fun j => (columnsOf p j).map (fun e => e.2))).flatten

/-- The start offsets pushed onto `P_indptr` by the outer emission loop, as a
function of the starting counter and the per-column entry counts. -/
def colOffsets : Nat → List Nat → List Nat
  | _, [] => []
  | a, l :: ls => a :: colOffsets (a + l) ls

/-- Claim C7's configuration: `n = 2`, `delta_s = 1`, unit weights, active
position reference `[1, 2]` and velocity reference `1/2`, end state inactive. -/
def p7 : PJSP :=
  { num_of_knots := 2, delta_s := 1, weight_ddx := 1, weight_dddx := 1,
    weight_x_ref := 1, weight_dx_ref := 1, dx_ref := 1 / 2, x_ref := [1, 2],
    penalty_dx := [0, 0], weight_end_state := ⟨0, 0, 0⟩, end_state_ref := ⟨0, 0, 0⟩,
    has_x_ref := true, has_dx_ref := true, has_end_state_ref := false }

/-- Claim C8's configuration: `n = 2`, every weight zero, default penalties,
no active references. -/
def p8 : PJSP :=
  { num_of_knots := 2, delta_s := 1, weight_ddx := 0, weight_dddx := 0,
    weight_x_ref := 0, weight_dx_ref := 0, dx_ref := 0, x_ref := [],
    penalty_dx := [0, 0], weight_end_state := ⟨0, 0, 0⟩, end_state_ref := ⟨0, 0, 0⟩,
    has_x_ref := false, has_dx_ref := false, has_end_state_ref := false }

/-- A single-knot configuration exercising the `n = 1` behaviour. -/
def p9 : PJSP := init 1 1

lemma getD_set_self {α} (l : List α) (i : Nat) (a d : α) (h : i < l.length) :
    (l.set i a).getD i d = a := by
  simp [List.getD_eq_getElem?_getD, List.getElem?_set_self h]

lemma getD_set_ne {α} (l : List α) (i j : Nat) (a d : α) (h : i ≠ j) :
    (l.set i a).getD j d = l.getD j d := by
  simp [List.getD_eq_getElem?_getD, List.getElem?_set_ne h]

/-- Closed form of the inner emission loop over one column. -/
lemma foldl_emitEntry (col : List (Nat × ℚ)) (s : EmitState) :
    col.foldl emitEntry s =
      ⟨s.dat ++ col.map (fun e => e.2 * 2), s.idx ++ col.map (fun e => e.1),
       s.ptr, s.ind + col.length⟩ := by
  induction col generalizing s with
  | nil => simp
  | cons e col ih =>
      rw [List.foldl_cons, ih]
      simp [emitEntry, EmitState.mk.injEq, List.append_assoc]
      omega

/-- Closed form of the outer emission loop over all columns. -/
lemma foldl_emitColumn (cols : List (List (Nat × ℚ))) (s : EmitState) :
    cols.foldl emitColumn s =
      ⟨s.dat ++ (cols.map (fun c => c.map (fun e => e.2 * 2))).flatten,
       s.idx ++ (cols.map (fun c => c.map (fun e => e.1))).flatten,
       s.ptr ++ colOffsets s.ind (cols.map List.length),
       s.ind + (cols.map List.length).sum⟩ := by
  induction cols generalizing s with
  | nil => simp [colOffsets]
  | cons c cols ih =>
      rw [List.foldl_cons, emitColumn, foldl_emitEntry, ih]
      simp [EmitState.mk.injEq, List.append_assoc, colOffsets]
      omega

lemma buildColumns_foldl_length (ops : List (Nat × Nat × ℚ)) :
    ∀ cols : List (List (Nat × ℚ)),
      (ops.foldl (fun cols e => cols.set e.1 ((cols.getD e.1 []) ++ [(e.2.1, e.2.2)]))
        cols).length = cols.length := by
  induction ops with
  | nil => intro cols; rfl
  | cons e ops ih => intro cols; rw [List.foldl_cons, ih]; simp

lemma buildColumns_length (m : Nat) (ops : List (Nat × Nat × ℚ)) :
    (buildColumns m ops).length = m := by
  rw [buildColumns, buildColumns_foldl_length]; simp

lemma buildColumns_foldl_getD (ops : List (Nat × Nat × ℚ)) (j : Nat) :
    ∀ cols : List (List (Nat × ℚ)), (∀ e ∈ ops, e.1 < cols.length) →
      (ops.foldl (fun cols e => cols.set e.1 ((cols.getD e.1 []) ++ [(e.2.1, e.2.2)]))
          cols).getD j []
        = cols.getD j []
          ++ ops.filterMap (fun e => if e.1 = j then some (e.2.1, e.2.2) else none) := by
  induction ops with
  | nil => intro cols _; simp
  | cons e ops ih =>
      intro cols h
      rw [List.foldl_cons, ih _ (by simpa using fun e' he' => h e' (List.mem_cons_of_mem e he'))]
      by_cases hej : e.1 = j
      · subst hej
        rw [getD_set_self _ _ _ _ (h e (List.mem_cons_self e ops))]
        simp [List.filterMap_cons, List.append_assoc]
      · rw [getD_set_ne _ _ _ _ _ hej]
        simp [List.filterMap_cons, hej]

lemma kernelOps_col_lt (p : PJSP) (hn : 1 ≤ p.num_of_knots) :
    ∀ e ∈ kernelOps p, e.1 < 3 * p.num_of_knots := by
  intro e he
  simp only [kernelOps, List.mem_append, List.mem_map, List.mem_range,
    List.mem_singleton] at he
  rcases he with
    (((((((⟨i, hi, rfl⟩ | rfl) | ⟨i, hi, rfl⟩) | rfl) | rfl) | ⟨k, hk, rfl⟩) | rfl)
      | ⟨i, hi, rfl⟩) <;>
    dsimp only <;> omega

lemma replicate_getD_nil {α} (m j : Nat) :
    (List.replicate m ([] : List α)).getD j [] = [] := by
  rw [List.getD_eq_getElem?_getD, List.getElem?_replicate]
  split <;> rfl

lemma columnsOf_eq (p : PJSP) (j : Nat) (hn : 1 ≤ p.num_of_knots) :
    columnsOf p j = (kernelOps p).filterMap
      (fun e => if e.1 = j then some (e.2.1, e.2.2) else none) := by
  have h := buildColumns_foldl_getD (kernelOps p) j
    (List.replicate (3 * p.num_of_knots) ([] : List (Nat × ℚ)))
    (by simpa using kernelOps_col_lt p hn)
  rw [columnsOf, buildColumns, h, replicate_getD_nil]
  simp

lemma storedAt_eq (p : PJSP) (c r : Nat) (hn : 1 ≤ p.num_of_knots) :
    storedAt p c r = (kernelOps p).filterMap
      (fun e => if e.1 = c ∧ e.2.1 = r then some e.2.2 else none) := by
  rw [storedAt, columnsOf_eq p c hn, List.filterMap_filterMap]
  congr 1
  funext e
  rcases e with ⟨c', r', v⟩
  by_cases h1 : c' = c <;> by_cases h2 : r' = r <;> simp [h1, h2]

lemma filterMap_singleton {α β} (f : α → Option β) (a : α) :
    [a].filterMap f = (f a).toList := by
  cases h : f a <;> simp [List.filterMap_cons, h]

lemma filterMap_range_nil {β} (m : Nat) (f : Nat → Option β)
    (h : ∀ i, i < m → f i = none) : (List.range m).filterMap f = [] := by
  exact List.filterMap_eq_nil_iff.mpr fun a ha => h a (List.mem_range.mp ha)

lemma filterMap_range_one {β} : ∀ (m i0 : Nat) (b : β) (f : Nat → Option β),
    i0 < m → f i0 = some b → (∀ i, i < m → i ≠ i0 → f i = none) →
    (List.range m).filterMap f = [b] := by
  intro m
  induction m with
  | zero => intro i0 b f h0 _ _; omega
  | succ m ih =>
      intro i0 b f h0 hb h
      rw [List.range_succ, List.filterMap_append]
      by_cases hm : i0 = m
      · subst hm
        rw [filterMap_range_nil i0 f (fun i hi => h i (by omega) (by omega))]
        simp [List.filterMap_cons, hb]
      · rw [ih i0 b f (by omega) hb (fun i hi hne => h i (by omega) hne)]
        have hnone : f m = none := h m (by omega) (by omega)
        simp [List.filterMap_cons, hnone]

lemma flatten_range_one {β} : ∀ (m c : Nat) (g : Nat → List β),
    c < m → (∀ j, j < m → j ≠ c → g j = []) →
    ((List.range m).map g).flatten = g c := by
  intro m
  induction m with
  | zero => intro c g hc _; omega
  | succ m ih =>
      intro c g hc h
      rw [List.range_succ, List.map_append, List.flatten_append]
      by_cases hm : c = m
      · subst hm
        have hpre : ((List.range c).map g).flatten = [] := by
          apply List.flatten_eq_nil_iff.mpr
          intro l hl
          rcases List.mem_map.mp hl with ⟨j, hj, rfl⟩
          have hj' := List.mem_range.mp hj
          exact h j (by omega) (by omega)
        simp [hpre]
      · rw [ih c g (by omega) (fun j hj hne => h j (by omega) hne)]
        have hnil : g m = [] := h m (by omega) (by omega)
        simp [hnil]

/-- Distribution of an arbitrary `filterMap` over the eight emplace segments
of `CalculateKernel`, with the per-segment index functions exposed. -/
lemma filterMap_kernelOps {β} (p : PJSP) (g : Nat × Nat × ℚ → Option β) :
    (kernelOps p).filterMap g =
      (List.range (p.num_of_knots - 1)).filterMap
        (fun i => g (i, i, p.weight_x_ref))
      ++ (g (p.num_of_knots - 1, p.num_of_knots - 1,
            p.weight_x_ref + p.weight_end_state.a0)).toList
      ++ (List.range (p.num_of_knots - 1)).filterMap
          (fun i => g (p.num_of_knots + i, p.num_of_knots + i,
            p.weight_dx_ref + p.penalty_dx.getD i 0))
      ++ (g (2 * p.num_of_knots - 1, 2 * p.num_of_knots - 1,
            p.weight_dx_ref + p.penalty_dx.getD (p.num_of_knots - 1) 0
              + p.weight_end_state.a1)).toList
      ++ (g (2 * p.num_of_knots, 2 * p.num_of_knots,
            p.weight_ddx + p.weight_dddx / (p.delta_s * p.delta_s))).toList
      ++ (List.range (p.num_of_knots - 2)).filterMap
          (fun k => g (2 * p.num_of_knots + 1 + k, 2 * p.num_of_knots + 1 + k,
            p.weight_ddx + 2 * p.weight_dddx / (p.delta_s * p.delta_s)))
      ++ (g (3 * p.num_of_knots - 1, 3 * p.num_of_knots - 1,
            p.weight_ddx + p.weight_dddx / (p.delta_s * p.delta_s)
              + p.weight_end_state.a2)).toList
      ++ (List.range (p.num_of_knots - 1)).filterMap
          (fun i => g (2 * p.num_of_knots + i, 2 * p.num_of_knots + i + 1,
            -2 * p.weight_dddx / (p.delta_s * p.delta_s))) := by
  simp only [kernelOps, List.filterMap_append, List.filterMap_map, filterMap_singleton,
    Function.comp_def]

lemma toList_ite {β} (c : Prop) [Decidable c] (x : β) :
    (if c then some x else none).toList = if c then [x] else [] := by
  split <;> rfl

lemma filterMap_range_id {β} (m j : Nat) (f : Nat → β) :
    (List.range m).filterMap (fun i => if i = j then some (f i) else none)
      = if j < m then [f j] else [] := by
  split
  · next h => exact filterMap_range_one m j _ _ h (if_pos rfl) (fun i hi hne => if_neg hne)
  · next h => exact filterMap_range_nil m _ (fun i hi => if_neg (by omega))

lemma filterMap_range_shift {β} (m a j : Nat) (f : Nat → β) :
    (List.range m).filterMap (fun i => if a + i = j then some (f i) else none)
      = if a ≤ j ∧ j - a < m then [f (j - a)] else [] := by
  split
  · next h =>
      exact filterMap_range_one m (j - a) _ _ h.2 (by rw [if_pos (by omega)])
        (fun i hi hne => if_neg (by omega))
  · next h => exact filterMap_range_nil m _ (fun i hi => if_neg (by omega))

/-- Fully evaluated contents of column `j`: each of the eight emplace segments
contributes its (at most one) entry with an explicit guard on `j`. -/
lemma columnsOf_closed (p : PJSP) (j : Nat) (hn : 1 ≤ p.num_of_knots) :
    columnsOf p j =
      (if j < p.num_of_knots - 1 then [(j, p.weight_x_ref)] else [])
      ++ (if p.num_of_knots - 1 = j then
            [(p.num_of_knots - 1, p.weight_x_ref + p.weight_end_state.a0)] else [])
      ++ (if p.num_of_knots ≤ j ∧ j - p.num_of_knots < p.num_of_knots - 1 then
            [(p.num_of_knots + (j - p.num_of_knots),
              p.weight_dx_ref + p.penalty_dx.getD (j - p.num_of_knots) 0)] else [])
      ++ (if 2 * p.num_of_knots - 1 = j then
            [(2 * p.num_of_knots - 1,
              p.weight_dx_ref + p.penalty_dx.getD (p.num_of_knots - 1) 0
                + p.weight_end_state.a1)] else [])
      ++ (if 2 * p.num_of_knots = j then
            [(2 * p.num_of_knots,
              p.weight_ddx + p.weight_dddx / (p.delta_s * p.delta_s))] else [])
      ++ (if 2 * p.num_of_knots + 1 ≤ j ∧ j - (2 * p.num_of_knots + 1) < p.num_of_knots - 2 then
            [(2 * p.num_of_knots + 1 + (j - (2 * p.num_of_knots + 1)),
              p.weight_ddx + 2 * p.weight_dddx / (p.delta_s * p.delta_s))] else [])
      ++ (if 3 * p.num_of_knots - 1 = j then
            [(3 * p.num_of_knots - 1,
              p.weight_ddx + p.weight_dddx / (p.delta_s * p.delta_s)
                + p.weight_end_state.a2)] else [])
      ++ (if 2 * p.num_of_knots ≤ j ∧ j - 2 * p.num_of_knots < p.num_of_knots - 1 then
            [(2 * p.num_of_knots + (j - 2 * p.num_of_knots) + 1,
              -2 * p.weight_dddx / (p.delta_s * p.delta_s))] else []) := by
  rw [columnsOf_eq p j hn, filterMap_kernelOps, filterMap_range_id, filterMap_range_shift,
      filterMap_range_shift, filterMap_range_shift]
  simp only [toList_ite]

/-- Column `j < n-1`: one position-tracking diagonal entry. -/
lemma columnsOf_xdiag (p : PJSP) (j : Nat) (hn : 2 ≤ p.num_of_knots)
    (hj : j < p.num_of_knots - 1) :
    columnsOf p j = [(j, p.weight_x_ref)] := by
  rw [columnsOf_closed p j (by omega)]
  rw [if_pos hj, if_neg (by omega), if_neg (by omega), if_neg (by omega), if_neg (by omega),
      if_neg (by omega), if_neg (by omega), if_neg (by omega)]
  simp

/-- Column `n-1`: the terminal position diagonal entry. -/
lemma columnsOf_xlast (p : PJSP) (hn : 2 ≤ p.num_of_knots) :
    columnsOf p (p.num_of_knots - 1)
      = [(p.num_of_knots - 1, p.weight_x_ref + p.weight_end_state.a0)] := by
  rw [columnsOf_closed p (p.num_of_knots - 1) (by omega)]
  rw [if_neg (by omega), if_pos rfl, if_neg (by omega), if_neg (by omega), if_neg (by omega),
      if_neg (by omega), if_neg (by omega), if_neg (by omega)]
  simp

/-- Column `n + i` for `i < n-1`: one velocity-tracking diagonal entry. -/
lemma columnsOf_dxdiag (p : PJSP) (i : Nat) (hn : 2 ≤ p.num_of_knots)
    (hi : i < p.num_of_knots - 1) :
    columnsOf p (p.num_of_knots + i)
      = [(p.num_of_knots + i, p.weight_dx_ref + p.penalty_dx.getD i 0)] := by
  rw [columnsOf_closed p (p.num_of_knots + i) (by omega)]
  rw [if_neg (by omega), if_neg (by omega), if_pos (by omega), if_neg (by omega),
      if_neg (by omega), if_neg (by omega), if_neg (by omega), if_neg (by omega)]
  have hsub : p.num_of_knots + i - p.num_of_knots = i := by omega
  rw [hsub]
  simp

/-- Column `2n-1`: the terminal velocity diagonal entry. -/
lemma columnsOf_dxlast (p : PJSP) (hn : 2 ≤ p.num_of_knots) :
    columnsOf p (2 * p.num_of_knots - 1)
      = [(2 * p.num_of_knots - 1,
          p.weight_dx_ref + p.penalty_dx.getD (p.num_of_knots - 1) 0
            + p.weight_end_state.a1)] := by
  rw [columnsOf_closed p (2 * p.num_of_knots - 1) (by omega)]
  rw [if_neg (by omega), if_neg (by omega), if_neg (by omega), if_pos rfl, if_neg (by omega),
      if_neg (by omega), if_neg (by omega), if_neg (by omega)]
  simp

/-- Column `2n`: the first acceleration diagonal entry followed by the first
jerk cross term. -/
lemma columnsOf_ddxfirst (p : PJSP) (hn : 2 ≤ p.num_of_knots) :
    columnsOf p (2 * p.num_of_knots)
      = [(2 * p.num_of_knots, p.weight_ddx + p.weight_dddx / (p.delta_s * p.delta_s)),
         (2 * p.num_of_knots + 1, -2 * p.weight_dddx / (p.delta_s * p.delta_s))] := by
  rw [columnsOf_closed p (2 * p.num_of_knots) (by omega)]
  rw [if_neg (by omega), if_neg (by omega), if_neg (by omega), if_neg (by omega), if_pos rfl,
      if_neg (by omega), if_neg (by omega), if_pos (by omega)]
  have hsub : 2 * p.num_of_knots - 2 * p.num_of_knots = 0 := by omega
  rw [hsub]
  simp

/-- Column `2n + i` for `0 < i < n-1`: an interior acceleration diagonal entry
followed by its jerk cross term. -/
lemma columnsOf_ddxmid (p : PJSP) (i : Nat) (hn : 2 ≤ p.num_of_knots)
    (hi0 : 0 < i) (hi : i < p.num_of_knots - 1) :
    columnsOf p (2 * p.num_of_knots + i)
      = [(2 * p.num_of_knots + i,
          p.weight_ddx + 2 * p.weight_dddx / (p.delta_s * p.delta_s)),
         (2 * p.num_of_knots + i + 1, -2 * p.weight_dddx / (p.delta_s * p.delta_s))] := by
  rw [columnsOf_closed p (2 * p.num_of_knots + i) (by omega)]
  rw [if_neg (by omega), if_neg (by omega), if_neg (by omega), if_neg (by omega),
      if_neg (by omega), if_pos (by omega), if_neg (by omega), if_pos (by omega)]
  have hs1 : 2 * p.num_of_knots + 1 + (2 * p.num_of_knots + i - (2 * p.num_of_knots + 1))
      = 2 * p.num_of_knots + i := by omega
  have hs2 : 2 * p.num_of_knots + i - 2 * p.num_of_knots = i := by omega
  rw [hs1, hs2]
  simp

/-- Column `3n-1`: the terminal acceleration diagonal entry. -/
lemma columnsOf_ddxlast (p : PJSP) (hn : 2 ≤ p.num_of_knots) :
    columnsOf p (3 * p.num_of_knots - 1)
      = [(3 * p.num_of_knots - 1,
          p.weight_ddx + p.weight_dddx / (p.delta_s * p.delta_s)
            + p.weight_end_state.a2)] := by
  rw [columnsOf_closed p (3 * p.num_of_knots - 1) (by omega)]
  rw [if_neg (by omega), if_neg (by omega), if_neg (by omega), if_neg (by omega),
      if_neg (by omega), if_neg (by omega), if_pos rfl, if_neg (by omega)]
  simp

lemma kernelOps_length (p : PJSP) :
    (kernelOps p).length = 3 * (p.num_of_knots - 1) + (p.num_of_knots - 2) + 4 := by
  simp [kernelOps]
  omega

/-- The `CHECK_EQ(value_index, kNumValue)` consistency check passes exactly
when `n ≥ 2`. -/
lemma kernelOps_check_iff (p : PJSP) :
    ((kernelOps p).length = 4 * p.num_of_knots - 1) ↔ 2 ≤ p.num_of_knots := by
  rw [kernelOps_length]
  omega

lemma getD_eq_getElem {α} (l : List α) (i : Nat) (d : α) (h : i < l.length) :
    l.getD i d = l[i] := by
  rw [List.getD_eq_getElem?_getD, List.getElem?_eq_getElem h]
  rfl

lemma buildColumns_eq_map (p : PJSP) (hn : 1 ≤ p.num_of_knots) :
    buildColumns (3 * p.num_of_knots) (kernelOps p)
      = (List.range (3 * p.num_of_knots)).map (fun j => columnsOf p j) := by
  apply List.ext_getElem
  · simp [buildColumns_length]
  · intro i h1 h2
    rw [List.getElem_map, List.getElem_range, ← getD_eq_getElem _ i [] h1]
    rfl

lemma colOffsets_length (ls : List Nat) : ∀ a, (colOffsets a ls).length = ls.length := by
  induction ls with
  | nil => intro a; rfl
  | cons l ls ih => intro a; simp [colOffsets, ih]

lemma colOffsets_bounds (ls : List Nat) :
    ∀ a x, x ∈ colOffsets a ls → a ≤ x ∧ x ≤ a + ls.sum := by
  induction ls with
  | nil => intro a x hx; simp [colOffsets] at hx
  | cons l ls ih =>
      intro a x hx
      rw [colOffsets, List.mem_cons] at hx
      rcases hx with rfl | hx
      · constructor <;> omega
      · have h := ih (a + l) x hx
        rw [List.sum_cons]
        constructor <;> omega

lemma colOffsets_pairwise (ls : List Nat) :
    ∀ a, (colOffsets a ls ++ [a + ls.sum]).Pairwise (· ≤ ·) := by
  induction ls with
  | nil => intro a; simp [colOffsets]
  | cons l ls ih =>
      intro a
      rw [colOffsets, List.sum_cons, ← Nat.add_assoc, List.cons_append,
        List.pairwise_cons]
      refine ⟨?_, ih (a + l)⟩
      intro x hx
      rw [List.mem_append, List.mem_singleton] at hx
      rcases hx with hx | rfl
      · exact le_trans (by omega) (colOffsets_bounds ls (a + l) x hx).1
      · omega

lemma sum_map_add {α} (l : List α) (f g : α → Nat) :
    (l.map (fun x => f x + g x)).sum = (l.map f).sum + (l.map g).sum := by
  induction l with
  | nil => rfl
  | cons a l ih =>
      simp only [List.map_cons, List.sum_cons, ih]
      omega

lemma sum_map_indicator : ∀ m c : Nat, c < m →
    ((List.range m).map (fun j => if c = j then 1 else 0)).sum = 1 := by
  intro m
  induction m with
  | zero => intro c hc; omega
  | succ m ih =>
      intro c hc
      rw [List.range_succ, List.map_append, List.sum_append]
      by_cases hm : c = m
      · have hpre : ((List.range m).map (fun j => if c = j then 1 else 0)).sum = 0 := by
          rw [List.map_congr_left (fun j hj => if_neg (by
            have := List.mem_range.mp hj
            omega))]
          simp
        rw [hpre]
        simp [hm]
      · rw [ih c (by omega)]
        simp [hm]

lemma sum_length_columns (m : Nat) : ∀ ops : List (Nat × Nat × ℚ), (∀ e ∈ ops, e.1 < m) →
    ((List.range m).map (fun j => (ops.filterMap
        (fun e => if e.1 = j then some (e.2.1, e.2.2) else none)).length)).sum
      = ops.length := by
  intro ops
  induction ops with
  | nil => intro _; simp
  | cons e ops ih =>
      intro h
      have he : e.1 < m := h e (List.mem_cons_self e ops)
      have hstep : ∀ j ∈ List.range m,
          ((e :: ops).filterMap
            (fun e' => if e'.1 = j then some (e'.2.1, e'.2.2) else none)).length
          = (if e.1 = j then 1 else 0)
            + (ops.filterMap
                (fun e' => if e'.1 = j then some (e'.2.1, e'.2.2) else none)).length := by
        intro j _
        by_cases hj : e.1 = j <;> simp [List.filterMap_cons, hj] <;> omega
      rw [List.map_congr_left hstep, sum_map_add, sum_map_indicator m e.1 he,
        ih (fun e' he' => h e' (List.mem_cons_of_mem e he'))]
      simp [Nat.add_comm]

lemma sum_columns_length (p : PJSP) (hn : 1 ≤ p.num_of_knots) :
    ((List.range (3 * p.num_of_knots)).map (fun j => (columnsOf p j).length)).sum
      = (kernelOps p).length := by
  rw [List.map_congr_left (fun j _ => by rw [columnsOf_eq p j hn])]
  exact sum_length_columns (3 * p.num_of_knots) (kernelOps p) (kernelOps_col_lt p hn)

/-- Closed form of the whole of `CalculateKernel` for `n ≥ 2`: the emitted
value and row sequences are the projections of `emittedTriples`, and the
column-offset sequence is the running count of earlier entries. -/
lemma calculateKernel_some (p : PJSP) (hn : 2 ≤ p.num_of_knots) :
    CalculateKernel p = some
      ((emittedTriples p).map (fun t => t.2.2),
       (emittedTriples p).map (fun t => t.2.1),
       colOffsets 0 ((List.range (3 * p.num_of_knots)).map (fun j => (columnsOf p j).length))
         ++ [4 * p.num_of_knots - 1]) := by
  rw [CalculateKernel]
  simp only []
  rw [if_pos ((kernelOps_check_iff p).mpr hn)]
  rw [buildColumns_eq_map p (by omega), foldl_emitColumn]
  simp only [emittedTriples, List.map_flatten, List.map_map, Function.comp_def,
    List.nil_append, Nat.zero_add]
  rw [sum_columns_length p (by omega), (kernelOps_check_iff p).mpr hn]

lemma getD_set_cases {α} (l : List α) (i j : Nat) (a d : α) (hi : i < l.length) :
    (l.set i a).getD j d = if j = i then a else l.getD j d := by
  by_cases h : j = i
  · subst h
    rw [if_pos rfl, getD_set_self _ _ _ _ hi]
  · rw [if_neg h, getD_set_ne _ _ _ _ _ (fun hh => h hh.symm)]

lemma offsetStep_length (p : PJSP) (q : List ℚ) (i : Nat) :
    (offsetStep p q i).length = q.length := by
  simp only [offsetStep]
  split <;> split <;> simp

lemma foldl_offsetStep_length (p : PJSP) (l : List Nat) :
    ∀ q : List ℚ, (l.foldl (offsetStep p) q).length = q.length := by
  induction l with
  | nil => intro q; rfl
  | cons i l ih => intro q; rw [List.foldl_cons, ih, offsetStep_length]

lemma offsetStep_getD (p : PJSP) (q : List ℚ) (i k : Nat)
    (hn : 1 ≤ p.num_of_knots) (hi : p.num_of_knots + i < q.length) :
    (offsetStep p q i).getD k 0 =
      q.getD k 0
      + (if k = i ∧ p.has_x_ref = true then -2 * p.weight_x_ref * p.x_ref.getD i 0 else 0)
      + (if k = p.num_of_knots + i ∧ p.has_dx_ref = true
          then -2 * p.weight_dx_ref * p.dx_ref else 0) := by
  have hii : i < q.length := by omega
  have hne : ¬(p.num_of_knots + i = i) := by omega
  simp only [offsetStep]
  by_cases hx : p.has_x_ref = true
  · rw [if_pos hx]
    by_cases hd : p.has_dx_ref = true
    · rw [if_pos hd]
      rw [getD_set_cases _ _ k _ 0 (by rw [List.length_set]; exact hi)]
      rw [getD_set_cases _ _ (p.num_of_knots + i) _ 0 hii, if_neg hne]
      by_cases hk2 : k = p.num_of_knots + i
      · have h1 : ¬(k = i ∧ p.has_x_ref = true) := fun h => absurd h.1 (by omega)
        rw [if_pos hk2, if_neg h1, if_pos ⟨hk2, hd⟩]
        subst hk2; ring
      · have h2 : ¬(k = p.num_of_knots + i ∧ p.has_dx_ref = true) := fun h => hk2 h.1
        rw [if_neg hk2, getD_set_cases _ _ k _ 0 hii, if_neg h2]
        by_cases hk1 : k = i
        · rw [if_pos hk1, if_pos ⟨hk1, hx⟩]
          subst hk1; ring
        · have h1 : ¬(k = i ∧ p.has_x_ref = true) := fun h => hk1 h.1
          rw [if_neg hk1, if_neg h1]
          ring
    · have h2 : ¬(k = p.num_of_knots + i ∧ p.has_dx_ref = true) := fun h => hd h.2
      rw [if_neg hd]
      rw [getD_set_cases _ _ k _ 0 hii, if_neg h2]
      by_cases hk1 : k = i
      · rw [if_pos hk1, if_pos ⟨hk1, hx⟩]
        subst hk1; ring
      · have h1 : ¬(k = i ∧ p.has_x_ref = true) := fun h => hk1 h.1
        rw [if_neg hk1, if_neg h1]
        ring
  · have h1 : ¬(k = i ∧ p.has_x_ref = true) := fun h => hx h.2
    rw [if_neg hx]
    by_cases hd : p.has_dx_ref = true
    · rw [if_pos hd]
      rw [getD_set_cases _ _ k _ 0 hi, if_neg h1]
      by_cases hk2 : k = p.num_of_knots + i
      · rw [if_pos hk2, if_pos ⟨hk2, hd⟩]
        subst hk2; ring
      · have h2 : ¬(k = p.num_of_knots + i ∧ p.has_dx_ref = true) := fun h => hk2 h.1
        rw [if_neg hk2, if_neg h2]
        ring
    · have h2 : ¬(k = p.num_of_knots + i ∧ p.has_dx_ref = true) := fun h => hd h.2
      rw [if_neg hd, if_neg h1, if_neg h2]
      ring

lemma foldl_offsetStep_getD (p : PJSP) (hn : 1 ≤ p.num_of_knots) :
    ∀ (m : Nat), m ≤ p.num_of_knots → ∀ (q : List ℚ), q.length = 3 * p.num_of_knots →
    ∀ k, ((List.range m).foldl (offsetStep p) q).getD k 0 =
      q.getD k 0
      + (if k < m ∧ p.has_x_ref = true then -2 * p.weight_x_ref * p.x_ref.getD k 0 else 0)
      + (if p.num_of_knots ≤ k ∧ k < p.num_of_knots + m ∧ p.has_dx_ref = true
          then -2 * p.weight_dx_ref * p.dx_ref else 0) := by
  intro m
  induction m with
  | zero =>
      intro _ q hq k
      have h1 : ¬(k < 0 ∧ p.has_x_ref = true) := fun h => absurd h.1 (by omega)
      have h2 : ¬(p.num_of_knots ≤ k ∧ k < p.num_of_knots + 0 ∧ p.has_dx_ref = true) :=
        fun h => (by omega : ¬(p.num_of_knots ≤ k ∧ k < p.num_of_knots + 0)) ⟨h.1, h.2.1⟩
      rw [List.range_zero, List.foldl_nil, if_neg h1, if_neg h2]
      ring
  | succ m ih =>
      intro hm q hq k
      rw [List.range_succ, List.foldl_append, List.foldl_cons, List.foldl_nil]
      rw [offsetStep_getD p _ m k hn
        (by rw [foldl_offsetStep_length, hq]; omega)]
      rw [ih (by omega) q hq k]
      by_cases hk1 : k = m
      · subst hk1
        have hAm : ¬(k < k ∧ p.has_x_ref = true) := fun h => absurd h.1 (by omega)
        have hBm : ¬(p.num_of_knots ≤ k ∧ k < p.num_of_knots + k ∧ p.has_dx_ref = true) :=
          fun h => absurd h.1 (by omega)
        have hBm1 : ¬(p.num_of_knots ≤ k ∧ k < p.num_of_knots + (k + 1)
            ∧ p.has_dx_ref = true) := fun h => absurd h.1 (by omega)
        have hY : ¬(k = p.num_of_knots + k ∧ p.has_dx_ref = true) :=
          fun h => absurd h.1 (by omega)
        rw [if_neg hAm, if_neg hBm, if_neg hBm1, if_neg hY]
        by_cases hx : p.has_x_ref = true
        · rw [if_pos ⟨rfl, hx⟩, if_pos ⟨by omega, hx⟩]
          ring
        · rw [if_neg (fun h => hx h.2), if_neg (fun h => hx h.2)]
          ring
      · by_cases hk2 : k = p.num_of_knots + m
        · subst hk2
          have hAm : ¬(p.num_of_knots + m < m ∧ p.has_x_ref = true) :=
            fun h => absurd h.1 (by omega)
          have hAm1 : ¬(p.num_of_knots + m < m + 1 ∧ p.has_x_ref = true) :=
            fun h => absurd h.1 (by omega)
          have hBm : ¬(p.num_of_knots ≤ p.num_of_knots + m
              ∧ p.num_of_knots + m < p.num_of_knots + m ∧ p.has_dx_ref = true) :=
            fun h => absurd h.2.1 (by omega)
          have hX : ¬(p.num_of_knots + m = m ∧ p.has_x_ref = true) :=
            fun h => absurd h.1 (by omega)
          rw [if_neg hAm, if_neg hAm1, if_neg hBm, if_neg hX]
          by_cases hd : p.has_dx_ref = true
          · rw [if_pos ⟨rfl, hd⟩, if_pos ⟨by omega, by omega, hd⟩]
            ring
          · rw [if_neg (fun h => hd h.2), if_neg (fun h => hd h.2.2)]
            ring
        · have hX : ¬(k = m ∧ p.has_x_ref = true) := fun h => hk1 h.1
          have hY : ¬(k = p.num_of_knots + m ∧ p.has_dx_ref = true) := fun h => hk2 h.1
          rw [if_neg hX, if_neg hY]
          have hA : (k < m + 1 ∧ p.has_x_ref = true) ↔ (k < m ∧ p.has_x_ref = true) :=
            and_congr_left' ⟨fun h => by omega, fun h => by omega⟩
          have hB : (p.num_of_knots ≤ k ∧ k < p.num_of_knots + (m + 1)
                ∧ p.has_dx_ref = true)
              ↔ (p.num_of_knots ≤ k ∧ k < p.num_of_knots + m ∧ p.has_dx_ref = true) :=
            and_congr_right fun _ => and_congr_left' ⟨fun h => by omega, fun h => by omega⟩
          rw [if_congr hA rfl rfl, if_congr hB rfl rfl]
          ring

lemma getD_replicate_zero (m k : Nat) : (List.replicate m (0 : ℚ)).getD k 0 = 0 := by
  rw [List.getD_eq_getElem?_getD, List.getElem?_replicate]
  split <;> rfl

lemma calculateOffset_length (p : PJSP) :
    (CalculateOffset p).length = 3 * p.num_of_knots := by
  simp only [CalculateOffset]
  split <;> simp [foldl_offsetStep_length]

/-- Pointwise closed form of `CalculateOffset`: entry `k` is the sum of the
(presence-gated) position contribution, velocity contribution, and end-state
contributions. -/
lemma calculateOffset_getD (p : PJSP) (hn : 1 ≤ p.num_of_knots) (k : Nat) :
    (CalculateOffset p).getD k 0 =
      (if k < p.num_of_knots ∧ p.has_x_ref = true
        then -2 * p.weight_x_ref * p.x_ref.getD k 0 else 0)
      + (if p.num_of_knots ≤ k ∧ k < 2 * p.num_of_knots ∧ p.has_dx_ref = true
        then -2 * p.weight_dx_ref * p.dx_ref else 0)
      + (if p.has_end_state_ref = true then
          (if k = p.num_of_knots - 1
            then -2 * p.weight_end_state.a0 * p.end_state_ref.a0 else 0)
          + (if k = 2 * p.num_of_knots - 1
            then -2 * p.weight_end_state.a1 * p.end_state_ref.a1 else 0)
          + (if k = 3 * p.num_of_knots - 1
            then -2 * p.weight_end_state.a2 * p.end_state_ref.a2 else 0)
        else 0) := by
  have h2n : p.num_of_knots + p.num_of_knots = 2 * p.num_of_knots := by omega
  have hq1 : ((List.range p.num_of_knots).foldl (offsetStep p)
      (List.replicate (3 * p.num_of_knots) (0 : ℚ))).length = 3 * p.num_of_knots := by
    rw [foldl_offsetStep_length]; simp
  have hbase : ∀ k', ((List.range p.num_of_knots).foldl (offsetStep p)
      (List.replicate (3 * p.num_of_knots) (0 : ℚ))).getD k' 0 =
      (if k' < p.num_of_knots ∧ p.has_x_ref = true
        then -2 * p.weight_x_ref * p.x_ref.getD k' 0 else 0)
      + (if p.num_of_knots ≤ k' ∧ k' < 2 * p.num_of_knots ∧ p.has_dx_ref = true
        then -2 * p.weight_dx_ref * p.dx_ref else 0) := by
    intro k'
    rw [foldl_offsetStep_getD p hn p.num_of_knots le_rfl _ (by simp) k',
      getD_replicate_zero, h2n]
    ring
  simp only [CalculateOffset]
  by_cases hes : p.has_end_state_ref = true
  · rw [if_pos hes, if_pos hes]
    rw [getD_set_cases _ _ k _ 0
      (by rw [List.length_set, List.length_set, hq1]; omega)]
    by_cases hk3 : k = 3 * p.num_of_knots - 1
    · rw [if_pos hk3]
      rw [getD_set_cases _ _ (3 * p.num_of_knots - 1) _ 0
        (by rw [List.length_set, hq1]; omega)]
      rw [if_neg (by omega : ¬(3 * p.num_of_knots - 1 = 2 * p.num_of_knots - 1))]
      rw [getD_set_cases _ _ (3 * p.num_of_knots - 1) _ 0 (by rw [hq1]; omega)]
      rw [if_neg (by omega : ¬(3 * p.num_of_knots - 1 = p.num_of_knots - 1))]
      rw [hbase, hk3]
      rw [if_neg (by omega : ¬(3 * p.num_of_knots - 1 = p.num_of_knots - 1)),
        if_neg (by omega : ¬(3 * p.num_of_knots - 1 = 2 * p.num_of_knots - 1)),
        if_pos rfl]
      ring
    · rw [if_neg hk3]
      rw [getD_set_cases _ _ k _ 0 (by rw [List.length_set, hq1]; omega)]
      by_cases hk2 : k = 2 * p.num_of_knots - 1
      · rw [if_pos hk2]
        rw [getD_set_cases _ _ (2 * p.num_of_knots - 1) _ 0 (by rw [hq1]; omega)]
        rw [if_neg (by omega : ¬(2 * p.num_of_knots - 1 = p.num_of_knots - 1))]
        rw [hbase, hk2]
        rw [if_neg (by omega : ¬(2 * p.num_of_knots - 1 = p.num_of_knots - 1)), if_pos rfl,
          if_neg (by omega : ¬(2 * p.num_of_knots - 1 = 3 * p.num_of_knots - 1))]
        ring
      · rw [if_neg hk2]
        rw [getD_set_cases _ _ k _ 0 (by rw [hq1]; omega)]
        by_cases hk1 : k = p.num_of_knots - 1
        · rw [if_pos hk1]
          rw [hbase, hk1]
          rw [if_pos rfl,
            if_neg (by omega : ¬(p.num_of_knots - 1 = 2 * p.num_of_knots - 1)),
            if_neg (by omega : ¬(p.num_of_knots - 1 = 3 * p.num_of_knots - 1))]
          ring
        · rw [if_neg hk1, hbase]
          rw [if_neg hk1, if_neg hk2, if_neg hk3]
          ring
  · rw [if_neg hes, if_neg hes, hbase]
    ring

/-- The row indices stored in column `j`, for `n ≥ 2`: acceleration columns
other than the last carry the diagonal row and the next row; every other
column carries only its diagonal row. -/
lemma columnsOf_rows (p : PJSP) (hn : 2 ≤ p.num_of_knots) (j : Nat)
    (hj : j < 3 * p.num_of_knots) :
    (columnsOf p j).map (fun e => e.1)
      = if 2 * p.num_of_knots ≤ j ∧ j < 3 * p.num_of_knots - 1
        then [j, j + 1] else [j] := by
  by_cases h1 : j < p.num_of_knots - 1
  · rw [columnsOf_xdiag p j hn h1, if_neg (by omega)]; rfl
  by_cases h2 : j = p.num_of_knots - 1
  · rw [h2, columnsOf_xlast p hn, if_neg (by omega)]; rfl
  by_cases h3 : j < 2 * p.num_of_knots - 1
  · have hj' : j = p.num_of_knots + (j - p.num_of_knots) := by omega
    rw [hj', columnsOf_dxdiag p (j - p.num_of_knots) hn (by omega), if_neg (by omega)]
    rfl
  by_cases h4 : j = 2 * p.num_of_knots - 1
  · rw [h4, columnsOf_dxlast p hn, if_neg (by omega)]; rfl
  by_cases h5 : j = 2 * p.num_of_knots
  · rw [h5, columnsOf_ddxfirst p hn, if_pos (by omega)]; rfl
  by_cases h6 : j < 3 * p.num_of_knots - 1
  · have hj' : j = 2 * p.num_of_knots + (j - 2 * p.num_of_knots) := by omega
    rw [hj', columnsOf_ddxmid p (j - 2 * p.num_of_knots) hn (by omega) (by omega),
      if_pos (by omega)]
    rfl
  · have h7 : j = 3 * p.num_of_knots - 1 := by omega
    rw [h7, columnsOf_ddxlast p hn, if_neg (by omega)]
    rfl

lemma emittedTriples_mem (p : PJSP) (t : Nat × Nat × ℚ) (ht : t ∈ emittedTriples p) :
    ∃ j, j < 3 * p.num_of_knots ∧ ∃ e ∈ columnsOf p j, t = (j, e.1, e.2 * 2) := by
  rw [emittedTriples] at ht
  rcases List.mem_flatten.mp ht with ⟨l, hl, htl⟩
  rcases List.mem_map.mp hl with ⟨j, hj, rfl⟩
  rcases List.mem_map.mp htl with ⟨e, he, rfl⟩
  exact ⟨j, List.mem_range.mp hj, e, he, rfl⟩

lemma emittedTriples_length (p : PJSP) (hn : 1 ≤ p.num_of_knots) :
    (emittedTriples p).length = (kernelOps p).length := by
  rw [emittedTriples, List.length_flatten, List.map_map, ← sum_columns_length p hn]
  congr 1
  apply List.map_congr_left
  intro j _
  simp [Function.comp_def]

/-- The emitted values at a given matrix position are the stored bare
coefficients at that position, doubled. -/
lemma emittedAt_eq (p : PJSP) (c r : Nat) (hc : c < 3 * p.num_of_knots) :
    emittedAt p c r = (storedAt p c r).map (fun v => v * 2) := by
  rw [emittedAt, emittedTriples, List.filterMap_flatten, List.map_map]
  rw [flatten_range_one (3 * p.num_of_knots) c _ hc ?hmiss]
  · simp only [Function.comp_def, List.filterMap_map]
    rw [storedAt, List.map_filterMap]
    congr 1
    funext e
    by_cases h : e.1 = r <;> simp [h]
  case hmiss =>
    intro j hj hne
    simp only [Function.comp_def, List.filterMap_map]
    apply List.filterMap_eq_nil_iff.mpr
    intro e _
    simp [hne]

lemma getD_nonneg (l : List ℚ) (h : ∀ x ∈ l, 0 ≤ x) (i : Nat) : 0 ≤ l.getD i 0 := by
  rw [List.getD_eq_getElem?_getD]
  cases hh : l[i]? with
  | none => simp
  | some a => simpa using h a (List.getElem?_mem hh)

lemma calculateKernel_some_imp {p : PJSP} {out : List ℚ × List Nat × List Nat}
    (h : CalculateKernel p = some out) : 2 ≤ p.num_of_knots := by
  by_contra hlt
  rw [CalculateKernel] at h
  simp only [] at h
  rw [if_neg (fun hc => hlt ((kernelOps_check_iff p).mp hc))] at h
  exact Option.noConfusion h

/-- The emitted row sequence depends only on the knot count. -/
lemma idx_pattern (p : PJSP) (hn : 2 ≤ p.num_of_knots) :
    (emittedTriples p).map (fun t => t.2.1)
      = ((List.range (3 * p.num_of_knots)).map
          (fun j => if 2 * p.num_of_knots ≤ j ∧ j < 3 * p.num_of_knots - 1
            then [j, j + 1] else [j])).flatten := by
  rw [emittedTriples, List.map_flatten, List.map_map]
  congr 1
  apply List.map_congr_left
  intro j hj
  have h := columnsOf_rows p hn j (List.mem_range.mp hj)
  simpa [Function.comp_def] using h

/-- The per-column entry counts depend only on the knot count. -/
lemma lens_pattern (p : PJSP) (hn : 2 ≤ p.num_of_knots) :
    (List.range (3 * p.num_of_knots)).map (fun j => (columnsOf p j).length)
      = (List.range (3 * p.num_of_knots)).map
          (fun j => if 2 * p.num_of_knots ≤ j ∧ j < 3 * p.num_of_knots - 1
            then 2 else 1) := by
  apply List.map_congr_left
  intro j hj
  have h := congrArg List.length (columnsOf_rows p hn j (List.mem_range.mp hj))
  rw [List.length_map] at h
  rw [h]
  split <;> rfl

/-- Entries within one column have strictly increasing row indices. -/
lemma columnsOf_row_lt (p : PJSP) (hn : 2 ≤ p.num_of_knots) (j : Nat)
    (hj : j < 3 * p.num_of_knots) :
    (columnsOf p j).Pairwise (fun a b => a.1 < b.1) := by
  apply List.pairwise_map.mp
  rw [columnsOf_rows p hn j hj]
  split
  · refine List.Pairwise.cons ?_ (by simp)
    intro b hb
    rw [List.mem_singleton] at hb
    omega
  · simp

/-- Enumeration of the stored entries of a column: each entry is either the
diagonal entry carrying one of the seven coefficient shapes, or the jerk
cross entry. -/
lemma columnsOf_values (p : PJSP) (hn : 2 ≤ p.num_of_knots) (j : Nat)
    (hj : j < 3 * p.num_of_knots) :
    ∀ e ∈ columnsOf p j,
      (e.1 = j ∧ (e.2 = p.weight_x_ref
        ∨ e.2 = p.weight_x_ref + p.weight_end_state.a0
        ∨ (∃ i, i < p.num_of_knots ∧ e.2 = p.weight_dx_ref + p.penalty_dx.getD i 0)
        ∨ e.2 = p.weight_dx_ref + p.penalty_dx.getD (p.num_of_knots - 1) 0
            + p.weight_end_state.a1
        ∨ e.2 = p.weight_ddx + p.weight_dddx / (p.delta_s * p.delta_s)
        ∨ e.2 = p.weight_ddx + 2 * p.weight_dddx / (p.delta_s * p.delta_s)
        ∨ e.2 = p.weight_ddx + p.weight_dddx / (p.delta_s * p.delta_s)
            + p.weight_end_state.a2))
      ∨ (e.1 = j + 1 ∧ e.2 = -2 * p.weight_dddx / (p.delta_s * p.delta_s)) := by
  intro e he
  by_cases h1 : j < p.num_of_knots - 1
  · rw [columnsOf_xdiag p j hn h1, List.mem_singleton] at he
    subst he
    exact Or.inl ⟨rfl, Or.inl rfl⟩
  by_cases h2 : j = p.num_of_knots - 1
  · rw [h2, columnsOf_xlast p hn, List.mem_singleton] at he
    subst he
    exact Or.inl ⟨h2.symm, Or.inr (Or.inl rfl)⟩
  by_cases h3 : j < 2 * p.num_of_knots - 1
  · have hj' : j = p.num_of_knots + (j - p.num_of_knots) := by omega
    rw [hj', columnsOf_dxdiag p (j - p.num_of_knots) hn (by omega),
      List.mem_singleton] at he
    subst he
    exact Or.inl ⟨hj'.symm, Or.inr (Or.inr (Or.inl ⟨j - p.num_of_knots, by omega, rfl⟩))⟩
  by_cases h4 : j = 2 * p.num_of_knots - 1
  · rw [h4, columnsOf_dxlast p hn, List.mem_singleton] at he
    subst he
    exact Or.inl ⟨h4.symm, Or.inr (Or.inr (Or.inr (Or.inl rfl)))⟩
  by_cases h5 : j = 2 * p.num_of_knots
  · rw [h5, columnsOf_ddxfirst p hn, List.mem_cons, List.mem_singleton] at he
    rcases he with rfl | rfl
    · exact Or.inl ⟨by dsimp only; omega, Or.inr (Or.inr (Or.inr (Or.inr (Or.inl rfl))))⟩
    · exact Or.inr ⟨by dsimp only; omega, rfl⟩
  by_cases h6 : j < 3 * p.num_of_knots - 1
  · have hj' : j = 2 * p.num_of_knots + (j - 2 * p.num_of_knots) := by omega
    rw [hj', columnsOf_ddxmid p (j - 2 * p.num_of_knots) hn (by omega) (by omega),
      List.mem_cons, List.mem_singleton] at he
    rcases he with rfl | rfl
    · exact Or.inl ⟨by dsimp only; omega,
        Or.inr (Or.inr (Or.inr (Or.inr (Or.inr (Or.inl rfl)))))⟩
    · exact Or.inr ⟨by dsimp only; omega, rfl⟩
  · have h7 : j = 3 * p.num_of_knots - 1 := by omega
    rw [h7, columnsOf_ddxlast p hn, List.mem_singleton] at he
    subst he
    exact Or.inl ⟨h7.symm, Or.inr (Or.inr (Or.inr (Or.inr (Or.inr (Or.inr rfl)))))⟩

/-- C4: `CalculateOffset` produces a dense vector of length `3n`; entry `k`
is the sum of the active position contribution (for `k < n`), the active
velocity contribution (for `n ≤ k < 2n`, the same scalar target at every
velocity knot), and, when the end-state reference is active, the end-state
contributions accumulated on top at `n-1`, `2n-1` and `3n-1`; entries
receiving no contribution are zero. -/
theorem C4_offset_accumulation (p : PJSP) (hn : 1 ≤ p.num_of_knots)
    (hx : p.has_x_ref = true → p.x_ref.length = p.num_of_knots) :
    (CalculateOffset p).length = 3 * p.num_of_knots
    ∧ ∀ k, k < 3 * p.num_of_knots →
        (CalculateOffset p).getD k 0 =
          (if k < p.num_of_knots ∧ p.has_x_ref = true
            then -2 * p.weight_x_ref * p.x_ref.getD k 0 else 0)
          + (if p.num_of_knots ≤ k ∧ k < 2 * p.num_of_knots ∧ p.has_dx_ref = true
            then -2 * p.weight_dx_ref * p.dx_ref else 0)
          + (if p.has_end_state_ref = true then
              (if k = p.num_of_knots - 1
                then -2 * p.weight_end_state.a0 * p.end_state_ref.a0 else 0)
              + (if k = 2 * p.num_of_knots - 1
                then -2 * p.weight_end_state.a1 * p.end_state_ref.a1 else 0)
              + (if k = 3 * p.num_of_knots - 1
                then -2 * p.weight_end_state.a2 * p.end_state_ref.a2 else 0)
            else 0) :=
  ⟨calculateOffset_length p, fun k _ => calculateOffset_getD p hn k⟩

/-- Witness for C4 at the concrete configuration `p7`. -/
theorem C4_offset_accumulation_witness :
    1 ≤ p7.num_of_knots
    ∧ (p7.has_x_ref = true → p7.x_ref.length = p7.num_of_knots)
    ∧ ((CalculateOffset p7).length = 3 * p7.num_of_knots
      ∧ ∀ k, k < 3 * p7.num_of_knots →
          (CalculateOffset p7).getD k 0 =
            (if k < p7.num_of_knots ∧ p7.has_x_ref = true
              then -2 * p7.weight_x_ref * p7.x_ref.getD k 0 else 0)
            + (if p7.num_of_knots ≤ k ∧ k < 2 * p7.num_of_knots ∧ p7.has_dx_ref = true
              then -2 * p7.weight_dx_ref * p7.dx_ref else 0)
            + (if p7.has_end_state_ref = true then
                (if k = p7.num_of_knots - 1
                  then -2 * p7.weight_end_state.a0 * p7.end_state_ref.a0 else 0)
                + (if k = 2 * p7.num_of_knots - 1
                  then -2 * p7.weight_end_state.a1 * p7.end_state_ref.a1 else 0)
                + (if k = 3 * p7.num_of_knots - 1
                  then -2 * p7.weight_end_state.a2 * p7.end_state_ref.a2 else 0)
              else 0)) :=
  ⟨by decide, by decide, C4_offset_accumulation p7 (by decide) (by decide)⟩

/-- C5: a reference whose presence flag is false contributes nothing to the
offset vector: `CalculateOffset` is unchanged under arbitrary replacement of
the absent reference's stored weight and target data. -/
theorem C5_absent_reference (p : PJSP) (hn : 1 ≤ p.num_of_knots) :
    (p.has_x_ref = false → ∀ w xs,
      CalculateOffset { p with weight_x_ref := w, x_ref := xs } = CalculateOffset p)
    ∧ (p.has_dx_ref = false → ∀ w d,
      CalculateOffset { p with weight_dx_ref := w, dx_ref := d } = CalculateOffset p)
    ∧ (p.has_end_state_ref = false → ∀ w r,
      CalculateOffset { p with weight_end_state := w, end_state_ref := r }
        = CalculateOffset p) := by
  refine ⟨?_, ?_, ?_⟩
  · intro hx w xs
    have hstep : offsetStep { p with weight_x_ref := w, x_ref := xs } = offsetStep p := by
      funext q i
      simp [offsetStep, hx]
    simp [CalculateOffset, hstep]
  · intro hd w d
    have hstep : offsetStep { p with weight_dx_ref := w, dx_ref := d } = offsetStep p := by
      funext q i
      simp [offsetStep, hd]
    simp [CalculateOffset, hstep]
  · intro hes w r
    have hstep : offsetStep { p with weight_end_state := w, end_state_ref := r }
        = offsetStep p := by
      funext q i
      simp [offsetStep]
    simp only [CalculateOffset, hstep]
    simp [hes]

/-- Witness for C5 at the concrete configuration `p8` (all flags absent). -/
theorem C5_absent_reference_witness :
    1 ≤ p8.num_of_knots
    ∧ ((p8.has_x_ref = false → ∀ w xs,
        CalculateOffset { p8 with weight_x_ref := w, x_ref := xs }
          = CalculateOffset p8)
      ∧ (p8.has_dx_ref = false → ∀ w d,
        CalculateOffset { p8 with weight_dx_ref := w, dx_ref := d }
          = CalculateOffset p8)
      ∧ (p8.has_end_state_ref = false → ∀ w r,
        CalculateOffset { p8 with weight_end_state := w, end_state_ref := r }
          = CalculateOffset p8)) :=
  ⟨by decide, C5_absent_reference p8 (by decide)⟩

/-- C6: `set_x_ref` fails precisely when the reference length differs from
the knot count and otherwise stores the weight and reference and marks the
position reference active; `set_penalty_dx` fails precisely when the penalty
length differs from the knot count and otherwise replaces the stored
per-knot penalty vector. -/
theorem C6_setter_contracts (p : PJSP) (w : ℚ) (xs pen : List ℚ) :
    (set_x_ref p w xs = none ↔ xs.length ≠ p.num_of_knots)
    ∧ (xs.length = p.num_of_knots →
        set_x_ref p w xs
          = some { p with x_ref := xs, weight_x_ref := w, has_x_ref := true })
    ∧ (set_penalty_dx p pen = none ↔ pen.length ≠ p.num_of_knots)
    ∧ (pen.length = p.num_of_knots →
        set_penalty_dx p pen = some { p with penalty_dx := pen }) := by
  refine ⟨?_, ?_, ?_, ?_⟩
  · rw [set_x_ref]; split <;> simp_all
  · intro h; rw [set_x_ref, if_pos h]
  · rw [set_penalty_dx]; split <;> simp_all
  · intro h; rw [set_penalty_dx, if_pos h]

/-- Witness for C6: successful setter calls on `p8`. -/
theorem C6_setter_contracts_witness :
    set_x_ref p8 3 [5, 6]
      = some { p8 with x_ref := [5, 6], weight_x_ref := 3, has_x_ref := true }
    ∧ set_penalty_dx p8 [7, 9] = some { p8 with penalty_dx := [7, 9] } :=
  ⟨(C6_setter_contracts p8 3 [5, 6] [7, 9]).2.1 (by decide),
   (C6_setter_contracts p8 3 [5, 6] [7, 9]).2.2.2 (by decide)⟩

/-- C7: concrete scenario `n = 2`, `delta_s = 1`, unit weights,
`penalty_dx = [0,0]`, active `x_ref = [1,2]`, active `dx_ref = 1/2`, end
state inactive: the kernel emits by column col0 → (0, 2.0), col1 → (1, 2.0),
col2 → (2, 2.0), col3 → (3, 2.0), col4 → (4, 4.0), (5, -4.0),
col5 → (5, 4.0) with column offsets `[0,1,2,3,4,6,7]`, and the offset
vector is `[-2, -4, -1, -1, 0, 0]`. -/
theorem C7_concrete_scenario :
    CalculateKernel p7
      = some ([2, 2, 2, 2, 4, -4, 4], [0, 1, 2, 3, 4, 5, 5], [0, 1, 2, 3, 4, 6, 7])
    ∧ CalculateOffset p7 = [-2, -4, -1, -1, 0, 0] := by
  constructor
  · rw [calculateKernel_some p7 (by norm_num [p7])]
    simp [emittedTriples, columnsOf_eq, kernelOps, p7, List.range_succ, colOffsets]
    norm_num
  · simp [CalculateOffset, offsetStep, p7, List.replicate, List.range_succ, List.set,
      List.getD]
    norm_num

/-- C9: for a single knot, the acceleration column (index 2) receives two
diagonal entries — one from the first-knot acceleration term and one from
the terminal acceleration term — the emplace count is 4 while the expected
count `4n - 1 = 3`, so the internal consistency check fails and
`CalculateKernel` never returns a matrix. -/
theorem C9_single_knot (p : PJSP) (h1 : p.num_of_knots = 1) :
    (kernelOps p).length = 4
    ∧ columnsOf p 2
        = [(2, p.weight_ddx + p.weight_dddx / (p.delta_s * p.delta_s)),
           (2, p.weight_ddx + p.weight_dddx / (p.delta_s * p.delta_s)
              + p.weight_end_state.a2)]
    ∧ CalculateKernel p = none := by
  refine ⟨?_, ?_, ?_⟩
  · rw [kernelOps_length, h1]
  · rw [columnsOf_eq p 2 (by omega)]
    simp [kernelOps, h1]
  · rw [CalculateKernel]
    simp only []
    rw [if_neg (fun hc => by have := (kernelOps_check_iff p).mp hc; omega)]

/-- Witness for C9 at the single-knot configuration `p9`. -/
theorem C9_single_knot_witness :
    p9.num_of_knots = 1
    ∧ ((kernelOps p9).length = 4
      ∧ columnsOf p9 2
          = [(2, p9.weight_ddx + p9.weight_dddx / (p9.delta_s * p9.delta_s)),
             (2, p9.weight_ddx + p9.weight_dddx / (p9.delta_s * p9.delta_s)
                + p9.weight_end_state.a2)]
      ∧ CalculateKernel p9 = none) :=
  ⟨by decide, C9_single_knot p9 (by decide)⟩

lemma kernelOps_flags (p : PJSP) (b1 b2 b3 : Bool) :
    kernelOps { p with has_x_ref := b1, has_dx_ref := b2, has_end_state_ref := b3 }
      = kernelOps p := by
  simp only [kernelOps]

lemma calculateKernel_flags (p : PJSP) (b1 b2 b3 : Bool) :
    CalculateKernel { p with has_x_ref := b1, has_dx_ref := b2, has_end_state_ref := b3 }
      = CalculateKernel p := by
  simp only [CalculateKernel, kernelOps_flags]

/-- C10: the quadratic matrix ignores the reference presence flags —
toggling them leaves `CalculateKernel` unchanged — and the terminal
diagonal coefficients at `n-1`, `2n-1`, `3n-1` include the end-state
weights even when the end-state reference is absent. -/
theorem C10_kernel_ignores_flags (p : PJSP) (hn : 2 ≤ p.num_of_knots)
    (hes : p.has_end_state_ref = false) :
    (∀ b1 b2 b3, CalculateKernel
        { p with has_x_ref := b1, has_dx_ref := b2, has_end_state_ref := b3 }
      = CalculateKernel p)
    ∧ storedAt p (p.num_of_knots - 1) (p.num_of_knots - 1)
        = [p.weight_x_ref + p.weight_end_state.a0]
    ∧ storedAt p (2 * p.num_of_knots - 1) (2 * p.num_of_knots - 1)
        = [p.weight_dx_ref + p.penalty_dx.getD (p.num_of_knots - 1) 0
            + p.weight_end_state.a1]
    ∧ storedAt p (3 * p.num_of_knots - 1) (3 * p.num_of_knots - 1)
        = [p.weight_ddx + p.weight_dddx / (p.delta_s * p.delta_s)
            + p.weight_end_state.a2] := by
  refine ⟨fun b1 b2 b3 => calculateKernel_flags p b1 b2 b3, ?_, ?_, ?_⟩
  · simp [storedAt, columnsOf_xlast p hn]
  · simp [storedAt, columnsOf_dxlast p hn]
  · simp [storedAt, columnsOf_ddxlast p hn]

/-- Witness for C10 at the concrete configuration `p7`. -/
theorem C10_kernel_ignores_flags_witness :
    2 ≤ p7.num_of_knots
    ∧ p7.has_end_state_ref = false
    ∧ ((∀ b1 b2 b3, CalculateKernel
          { p7 with has_x_ref := b1, has_dx_ref := b2, has_end_state_ref := b3 }
        = CalculateKernel p7)
      ∧ storedAt p7 (p7.num_of_knots - 1) (p7.num_of_knots - 1)
          = [p7.weight_x_ref + p7.weight_end_state.a0]
      ∧ storedAt p7 (2 * p7.num_of_knots - 1) (2 * p7.num_of_knots - 1)
          = [p7.weight_dx_ref + p7.penalty_dx.getD (p7.num_of_knots - 1) 0
              + p7.weight_end_state.a1]
      ∧ storedAt p7 (3 * p7.num_of_knots - 1) (3 * p7.num_of_knots - 1)
          = [p7.weight_ddx + p7.weight_dddx / (p7.delta_s * p7.delta_s)
              + p7.weight_end_state.a2]) :=
  ⟨by decide, by decide, C10_kernel_ignores_flags p7 (by decide) (by decide)⟩

/-- C1: for `n ≥ 2` and `delta_s > 0`, the acceleration block stores, before
doubling, `w_ddx + w_dddx/ds²` at diagonal index `2n`, `w_ddx + 2w_dddx/ds²`
at each interior diagonal `2n+i` (`0 < i < n-1`),
`w_ddx + w_dddx/ds² + w_end[2]` at `3n-1`, and the cross term
`-2 w_dddx/ds²` at column `2n+i`, row `2n+i+1` for `i < n-1`; every emitted
value is exactly twice the bare stored coefficient. -/
theorem C1_acceleration_kernel (p : PJSP) (hn : 2 ≤ p.num_of_knots)
    (hd : 0 < p.delta_s) :
    storedAt p (2 * p.num_of_knots) (2 * p.num_of_knots)
      = [p.weight_ddx + p.weight_dddx / (p.delta_s * p.delta_s)]
    ∧ (∀ i, 0 < i → i < p.num_of_knots - 1 →
        storedAt p (2 * p.num_of_knots + i) (2 * p.num_of_knots + i)
          = [p.weight_ddx + 2 * p.weight_dddx / (p.delta_s * p.delta_s)])
    ∧ storedAt p (3 * p.num_of_knots - 1) (3 * p.num_of_knots - 1)
        = [p.weight_ddx + p.weight_dddx / (p.delta_s * p.delta_s)
            + p.weight_end_state.a2]
    ∧ (∀ i, i < p.num_of_knots - 1 →
        storedAt p (2 * p.num_of_knots + i) (2 * p.num_of_knots + i + 1)
          = [-2 * p.weight_dddx / (p.delta_s * p.delta_s)])
    ∧ (∀ dat idx ptr, CalculateKernel p = some (dat, idx, ptr) →
        dat = (rawStored p).map (fun v => v * 2)) := by
  refine ⟨?_, ?_, ?_, ?_, ?_⟩
  · have h1 : (2 * p.num_of_knots + 1 = 2 * p.num_of_knots) = False := eq_false (by omega)
    simp [storedAt, columnsOf_ddxfirst p hn, h1]
  · intro i h0 hi
    have h1 : (2 * p.num_of_knots + i + 1 = 2 * p.num_of_knots + i) = False :=
      eq_false (by omega)
    simp [storedAt, columnsOf_ddxmid p i hn h0 hi, h1]
  · simp [storedAt, columnsOf_ddxlast p hn]
  · intro i hi
    by_cases h0 : i = 0
    · subst h0
      have h1 : (2 * p.num_of_knots = 2 * p.num_of_knots + 0 + 1) = False :=
        eq_false (by omega)
      simp [storedAt, columnsOf_ddxfirst p hn, h1]
    · have h1 : (2 * p.num_of_knots + i = 2 * p.num_of_knots + i + 1) = False :=
        eq_false (by omega)
      simp [storedAt, columnsOf_ddxmid p i hn (by omega) hi, h1]
  · intro dat idx ptr h
    rw [calculateKernel_some p hn] at h
    simp only [Option.some.injEq, Prod.mk.injEq] at h
    rw [← h.1]
    simp [emittedTriples, rawStored, List.map_flatten, List.map_map, Function.comp_def]

/-- Witness for C1 at the concrete configuration `p7`. -/
theorem C1_acceleration_kernel_witness :
    2 ≤ p7.num_of_knots
    ∧ 0 < p7.delta_s
    ∧ (storedAt p7 (2 * p7.num_of_knots) (2 * p7.num_of_knots)
        = [p7.weight_ddx + p7.weight_dddx / (p7.delta_s * p7.delta_s)]
      ∧ (∀ i, 0 < i → i < p7.num_of_knots - 1 →
          storedAt p7 (2 * p7.num_of_knots + i) (2 * p7.num_of_knots + i)
            = [p7.weight_ddx + 2 * p7.weight_dddx / (p7.delta_s * p7.delta_s)])
      ∧ storedAt p7 (3 * p7.num_of_knots - 1) (3 * p7.num_of_knots - 1)
          = [p7.weight_ddx + p7.weight_dddx / (p7.delta_s * p7.delta_s)
              + p7.weight_end_state.a2]
      ∧ (∀ i, i < p7.num_of_knots - 1 →
          storedAt p7 (2 * p7.num_of_knots + i) (2 * p7.num_of_knots + i + 1)
            = [-2 * p7.weight_dddx / (p7.delta_s * p7.delta_s)])
      ∧ (∀ dat idx ptr, CalculateKernel p7 = some (dat, idx, ptr) →
          dat = (rawStored p7).map (fun v => v * 2))) :=
  ⟨by decide, by norm_num [p7], C1_acceleration_kernel p7 (by decide) (by norm_num [p7])⟩

/-- C2: for `n ≥ 2` the emitted (doubled) diagonal values are
`2 w_x_ref` at indices `i < n-1`, `2(w_x_ref + w_end[0])` at `n-1`,
`2(w_dx_ref + penalty_dx[i])` at `n+i` for `i < n-1`, and
`2(w_dx_ref + penalty_dx[n-1] + w_end[1])` at `2n-1`; the emitted value
sequence is the value projection of the column-major triples. -/
theorem C2_tracking_diagonals (p : PJSP) (hn : 2 ≤ p.num_of_knots)
    (hpen : p.penalty_dx.length = p.num_of_knots) :
    (∀ i, i < p.num_of_knots - 1 → emittedAt p i i = [2 * p.weight_x_ref])
    ∧ emittedAt p (p.num_of_knots - 1) (p.num_of_knots - 1)
        = [2 * (p.weight_x_ref + p.weight_end_state.a0)]
    ∧ (∀ i, i < p.num_of_knots - 1 →
        emittedAt p (p.num_of_knots + i) (p.num_of_knots + i)
          = [2 * (p.weight_dx_ref + p.penalty_dx.getD i 0)])
    ∧ emittedAt p (2 * p.num_of_knots - 1) (2 * p.num_of_knots - 1)
        = [2 * (p.weight_dx_ref + p.penalty_dx.getD (p.num_of_knots - 1) 0
            + p.weight_end_state.a1)]
    ∧ (∀ dat idx ptr, CalculateKernel p = some (dat, idx, ptr) →
        dat = (emittedTriples p).map (fun t => t.2.2)) := by
  refine ⟨?_, ?_, ?_, ?_, ?_⟩
  · intro i hi
    rw [emittedAt_eq p i i (by omega), storedAt, columnsOf_xdiag p i hn hi]
    simp [mul_comm]
  · rw [emittedAt_eq p _ _ (by omega), storedAt, columnsOf_xlast p hn]
    simp [mul_comm]
  · intro i hi
    rw [emittedAt_eq p _ _ (by omega), storedAt, columnsOf_dxdiag p i hn hi]
    simp [mul_comm]
  · rw [emittedAt_eq p _ _ (by omega), storedAt, columnsOf_dxlast p hn]
    simp [mul_comm]
  · intro dat idx ptr h
    rw [calculateKernel_some p hn] at h
    simp only [Option.some.injEq, Prod.mk.injEq] at h
    exact h.1.symm

/-- Witness for C2 at the concrete configuration `p7`. -/
theorem C2_tracking_diagonals_witness :
    2 ≤ p7.num_of_knots
    ∧ p7.penalty_dx.length = p7.num_of_knots
    ∧ ((∀ i, i < p7.num_of_knots - 1 → emittedAt p7 i i = [2 * p7.weight_x_ref])
      ∧ emittedAt p7 (p7.num_of_knots - 1) (p7.num_of_knots - 1)
          = [2 * (p7.weight_x_ref + p7.weight_end_state.a0)]
      ∧ (∀ i, i < p7.num_of_knots - 1 →
          emittedAt p7 (p7.num_of_knots + i) (p7.num_of_knots + i)
            = [2 * (p7.weight_dx_ref + p7.penalty_dx.getD i 0)])
      ∧ emittedAt p7 (2 * p7.num_of_knots - 1) (2 * p7.num_of_knots - 1)
          = [2 * (p7.weight_dx_ref + p7.penalty_dx.getD (p7.num_of_knots - 1) 0
              + p7.weight_end_state.a1)]
      ∧ (∀ dat idx ptr, CalculateKernel p7 = some (dat, idx, ptr) →
          dat = (emittedTriples p7).map (fun t => t.2.2))) :=
  ⟨by decide, by decide, C2_tracking_diagonals p7 (by decide) (by decide)⟩

/-- C8: with `n = 2`, every weight zero and no active references,
`CalculateKernel` still emits exactly `4n-1 = 7` stored entries, all `0.0`,
with the same row-index and column-offset sequences as the unit-weight
scenario, and `CalculateOffset` is all zero; in general, two successfully
built kernels with the same knot count have identical row-index and
column-offset sequences, so the sparsity pattern does not depend on any
weight value. -/
theorem C8_zero_weight_pattern :
    CalculateKernel p8
      = some ([0, 0, 0, 0, 0, 0, 0], [0, 1, 2, 3, 4, 5, 5], [0, 1, 2, 3, 4, 6, 7])
    ∧ CalculateOffset p8 = [0, 0, 0, 0, 0, 0]
    ∧ (∀ q1 q2 : PJSP, q1.num_of_knots = q2.num_of_knots →
        ∀ dat1 idx1 ptr1 dat2 idx2 ptr2,
          CalculateKernel q1 = some (dat1, idx1, ptr1) →
          CalculateKernel q2 = some (dat2, idx2, ptr2) →
          idx1 = idx2 ∧ ptr1 = ptr2) := by
  refine ⟨?_, ?_, ?_⟩
  · rw [calculateKernel_some p8 (by norm_num [p8])]
    simp [emittedTriples, columnsOf_eq, kernelOps, p8, List.range_succ, colOffsets]
  · simp [CalculateOffset, offsetStep, p8, List.replicate, List.range_succ, List.set,
      List.getD]
  · intro q1 q2 hq dat1 idx1 ptr1 dat2 idx2 ptr2 h1 h2
    have hn1 : 2 ≤ q1.num_of_knots := calculateKernel_some_imp h1
    have hn2 : 2 ≤ q2.num_of_knots := calculateKernel_some_imp h2
    rw [calculateKernel_some q1 hn1] at h1
    rw [calculateKernel_some q2 hn2] at h2
    simp only [Option.some.injEq, Prod.mk.injEq] at h1 h2
    obtain ⟨hd1, hi1, hp1⟩ := h1
    obtain ⟨hd2, hi2, hp2⟩ := h2
    constructor
    · rw [← hi1, ← hi2, idx_pattern q1 hn1, idx_pattern q2 hn2, hq]
    · rw [← hp1, ← hp2, lens_pattern q1 hn1, lens_pattern q2 hn2, hq]

/-- Witness for the generality in C8: the unit-weight and zero-weight
configurations share the same knot count, and applying C8's
pattern-independence statement to their kernels equates the respective
row-index and column-offset sequences. -/
theorem C8_zero_weight_pattern_witness :
    p7.num_of_knots = p8.num_of_knots
    ∧ (([0, 1, 2, 3, 4, 5, 5] : List Nat) = [0, 1, 2, 3, 4, 5, 5]
      ∧ ([0, 1, 2, 3, 4, 6, 7] : List Nat) = [0, 1, 2, 3, 4, 6, 7]) :=
  ⟨by decide,
    C8_zero_weight_pattern.2.2 p7 p8 (by decide)
      [2, 2, 2, 2, 4, -4, 4] [0, 1, 2, 3, 4, 5, 5] [0, 1, 2, 3, 4, 6, 7]
      [0, 0, 0, 0, 0, 0, 0] [0, 1, 2, 3, 4, 5, 5] [0, 1, 2, 3, 4, 6, 7]
      (by rw [calculateKernel_some p7 (by norm_num [p7])]
          simp [emittedTriples, columnsOf_eq, kernelOps, p7, List.range_succ, colOffsets]
          norm_num)
      (by rw [calculateKernel_some p8 (by norm_num [p8])]
          simp [emittedTriples, columnsOf_eq, kernelOps, p8, List.range_succ,
            colOffsets])⟩

/-- C3 counterexample: `p8` has every weight and penalty non-negative (all
zero) with `n = 2` and `delta_s = 1 > 0`, yet the emitted off-diagonal
entry `(column 4, row 5)` has value `0`, which is not negative — refuting
the claim that off-diagonal values are negative whenever all weights and
penalties are non-negative. -/
theorem C3_counterexample :
    (0 ≤ p8.weight_x_ref ∧ 0 ≤ p8.weight_dx_ref ∧ 0 ≤ p8.weight_ddx
      ∧ 0 ≤ p8.weight_dddx ∧ 0 ≤ p8.weight_end_state.a0
      ∧ 0 ≤ p8.weight_end_state.a1 ∧ 0 ≤ p8.weight_end_state.a2
      ∧ (∀ x ∈ p8.penalty_dx, 0 ≤ x) ∧ 0 < p8.delta_s ∧ 2 ≤ p8.num_of_knots)
    ∧ ¬ (∀ t ∈ emittedTriples p8, t.1 ≠ t.2.1 → t.2.2 < 0) := by
  constructor
  · refine ⟨le_refl 0, le_refl 0, le_refl 0, le_refl 0, le_refl 0, le_refl 0, le_refl 0,
      ?_, by norm_num [p8], by decide⟩
    intro x hx
    simp [p8] at hx
    rw [hx]
  · intro hall
    have hlist : emittedTriples p8
        = [(0, 0, 0), (1, 1, 0), (2, 2, 0), (3, 3, 0), (4, 4, 0), (4, 5, 0), (5, 5, 0)] := by
      simp [emittedTriples, columnsOf_eq, kernelOps, p8, List.range_succ]
    have hmem : ((4 : Nat), (5 : Nat), (0 : ℚ)) ∈ emittedTriples p8 := by
      rw [hlist]
      simp
    have hlt := hall _ hmem (by decide)
    exact absurd hlt (lt_irrefl 0)

/-- C3 (amended): for every `n ≥ 2` and `delta_s > 0`, `CalculateKernel`
emits exactly `4n-1` entries and its internal count check passes; every
emitted position lies in `[0,3n)×[0,3n)` with row index ≥ column index;
entries are emitted in increasing column order and, within a column, in
increasing row order; the column-offset sequence has length `3n+1`, starts
at `0`, is non-decreasing and ends at `4n-1`; and whenever all weights and
penalties are non-negative, every diagonal value is non-negative and every
off-diagonal value is non-positive (amended from "negative", which fails
when `weight_dddx = 0`). -/
theorem C3_kernel_shape (p : PJSP) (hn : 2 ≤ p.num_of_knots) (hd : 0 < p.delta_s) :
    ∃ dat idx ptr, CalculateKernel p = some (dat, idx, ptr)
      ∧ dat.length = 4 * p.num_of_knots - 1
      ∧ dat = (emittedTriples p).map (fun t => t.2.2)
      ∧ idx = (emittedTriples p).map (fun t => t.2.1)
      ∧ (∀ t ∈ emittedTriples p,
          t.1 < 3 * p.num_of_knots ∧ t.2.1 < 3 * p.num_of_knots ∧ t.1 ≤ t.2.1)
      ∧ (emittedTriples p).Pairwise
          (fun s t => s.1 < t.1 ∨ (s.1 = t.1 ∧ s.2.1 < t.2.1))
      ∧ ptr.length = 3 * p.num_of_knots + 1
      ∧ ptr.head? = some 0
      ∧ ptr.Pairwise (· ≤ ·)
      ∧ ptr.getLast? = some (4 * p.num_of_knots - 1)
      ∧ ((0 ≤ p.weight_x_ref ∧ 0 ≤ p.weight_dx_ref ∧ 0 ≤ p.weight_ddx
            ∧ 0 ≤ p.weight_dddx ∧ 0 ≤ p.weight_end_state.a0
            ∧ 0 ≤ p.weight_end_state.a1 ∧ 0 ≤ p.weight_end_state.a2
            ∧ (∀ x ∈ p.penalty_dx, 0 ≤ x)) →
          ∀ t ∈ emittedTriples p,
            (t.1 = t.2.1 → 0 ≤ t.2.2) ∧ (t.1 ≠ t.2.1 → t.2.2 ≤ 0)) := by
  refine ⟨_, _, _, calculateKernel_some p hn, ?_, rfl, rfl, ?_, ?_, ?_, ?_, ?_, ?_, ?_⟩
  · rw [List.length_map, emittedTriples_length p (by omega),
      (kernelOps_check_iff p).mpr hn]
  · intro t ht
    obtain ⟨j, hj, e, he, rfl⟩ := emittedTriples_mem p t ht
    have hr : e.1 ∈ (columnsOf p j).map (fun e => e.1) := List.mem_map_of_mem _ he
    rw [columnsOf_rows p hn j hj] at hr
    by_cases hc : 2 * p.num_of_knots ≤ j ∧ j < 3 * p.num_of_knots - 1
    · rw [if_pos hc] at hr
      simp at hr
      refine ⟨hj, ?_, ?_⟩ <;> dsimp only <;> rcases hr with hr | hr <;> omega
    · rw [if_neg hc] at hr
      simp at hr
      refine ⟨hj, ?_, ?_⟩ <;> dsimp only <;> omega
  · rw [emittedTriples]
    apply List.pairwise_flatten.mpr
    constructor
    · intro l hl
      rcases List.mem_map.mp hl with ⟨j, hj, rfl⟩
      apply List.pairwise_map.mpr
      exact (columnsOf_row_lt p hn j (List.mem_range.mp hj)).imp
        (fun h => Or.inr ⟨rfl, h⟩)
    · apply List.pairwise_map.mpr
      refine (List.pairwise_lt_range (3 * p.num_of_knots)).imp ?_
      intro j j' hjj x hx y hy
      rcases List.mem_map.mp hx with ⟨e, he, rfl⟩
      rcases List.mem_map.mp hy with ⟨e', he', rfl⟩
      exact Or.inl hjj
  · simp [colOffsets_length]
  · rcases List.exists_cons_of_ne_nil
        (by simp [List.range_eq_nil]; omega : List.range (3 * p.num_of_knots) ≠ [])
      with ⟨a, l, hl⟩
    rw [hl]
    simp [colOffsets]
  · have h := colOffsets_pairwise
      ((List.range (3 * p.num_of_knots)).map (fun j => (columnsOf p j).length)) 0
    rw [Nat.zero_add, sum_columns_length p (by omega),
      (kernelOps_check_iff p).mpr hn] at h
    exact h
  · exact List.getLast?_concat _
  · rintro ⟨hwx, hwdx, hwddx, hwdddx, hwe0, hwe1, hwe2, hpen⟩ t ht
    obtain ⟨j, hj, e, he, rfl⟩ := emittedTriples_mem p t ht
    have hds : (0 : ℚ) ≤ p.delta_s * p.delta_s := mul_self_nonneg _
    rcases columnsOf_values p hn j hj e he with ⟨hrow, hval⟩ | ⟨hrow, hval⟩
    · constructor
      · intro _
        have h2 : (0 : ℚ) ≤ e.2 := by
          rcases hval with h | h | ⟨i, hi, h⟩ | h | h | h | h <;> rw [h]
          · exact hwx
          · exact add_nonneg hwx hwe0
          · exact add_nonneg hwdx (getD_nonneg _ hpen i)
          · exact add_nonneg (add_nonneg hwdx (getD_nonneg _ hpen _)) hwe1
          · exact add_nonneg hwddx (div_nonneg hwdddx hds)
          · exact add_nonneg hwddx (div_nonneg (by linarith) hds)
          · exact add_nonneg (add_nonneg hwddx (div_nonneg hwdddx hds)) hwe2
        show (0 : ℚ) ≤ e.2 * 2
        linarith
      · intro hne
        exact absurd hrow.symm hne
    · constructor
      · intro heq
        exact absurd (heq.trans hrow) (by omega)
      · intro _
        show e.2 * 2 ≤ 0
        rw [hval]
        have hq : -2 * p.weight_dddx / (p.delta_s * p.delta_s) ≤ 0 := by
          apply div_nonpos_iff.mpr
          exact Or.inr ⟨by linarith, hds⟩
        linarith

/-- Witness for the amended C3 at the concrete configuration `p7`. -/
theorem C3_kernel_shape_witness :
    2 ≤ p7.num_of_knots
    ∧ 0 < p7.delta_s
    ∧ (∃ dat idx ptr, CalculateKernel p7 = some (dat, idx, ptr)
      ∧ dat.length = 4 * p7.num_of_knots - 1
      ∧ dat = (emittedTriples p7).map (fun t => t.2.2)
      ∧ idx = (emittedTriples p7).map (fun t => t.2.1)
      ∧ (∀ t ∈ emittedTriples p7,
          t.1 < 3 * p7.num_of_knots ∧ t.2.1 < 3 * p7.num_of_knots ∧ t.1 ≤ t.2.1)
      ∧ (emittedTriples p7).Pairwise
          (fun s t => s.1 < t.1 ∨ (s.1 = t.1 ∧ s.2.1 < t.2.1))
      ∧ ptr.length = 3 * p7.num_of_knots + 1
      ∧ ptr.head? = some 0
      ∧ ptr.Pairwise (· ≤ ·)
      ∧ ptr.getLast? = some (4 * p7.num_of_knots - 1)
      ∧ ((0 ≤ p7.weight_x_ref ∧ 0 ≤ p7.weight_dx_ref ∧ 0 ≤ p7.weight_ddx
            ∧ 0 ≤ p7.weight_dddx ∧ 0 ≤ p7.weight_end_state.a0
            ∧ 0 ≤ p7.weight_end_state.a1 ∧ 0 ≤ p7.weight_end_state.a2
            ∧ (∀ x ∈ p7.penalty_dx, 0 ≤ x)) →
          ∀ t ∈ emittedTriples p7,
            (t.1 = t.2.1 → 0 ≤ t.2.2) ∧ (t.1 ≠ t.2.1 → t.2.2 ≤ 0))) :=
  ⟨by decide, by norm_num [p7], C3_kernel_shape p7 (by decide) (by norm_num [p7])⟩

end Apollo
